import Mathlib

/-!
Verification development for the impress Application kernel
(`application.js`).  The JavaScript source is shallowly embedded:

* JS numbers that flow through `parseInt` / `Number.prototype.toString`
  are modelled by `JsNum` (an integer or `NaN`);
* JS strings are Lean `String`s, with character-level helpers
  (`jsSubstringFrom`, `jsIndexOf`, `jsSubstring0`, `jsSplit`) mirroring
  `String.prototype.substring`, `indexOf` and `split`;
* JS objects used as maps are association lists (`List (String × _)`);
  `undefined` lookups are `Option.none`;
* asynchronous control flow of `init` / `shutdown` / the watcher
  handlers is modelled by explicit event traces; the interleaving of
  the `Promise.allSettled` fan-out is a `sched : List Nat` parameter
  choosing which branch advances at each step.
-/

/-- Model of a JS number as produced by `parseInt`: either `NaN` or an
integer (version numbers are integral in this kernel). -/
inductive JsNum where
  | nan : JsNum
  | int : Int → JsNum
deriving DecidableEq

/-- Numeric value of a list of decimal digit characters, as accumulated
left to right (the value `parseInt` computes from the digit prefix). -/
def digitsToNat (ds : List Char) : Nat :=
  ds.foldl (fun a c => 10 * a + (c.toNat - 48)) 0

/-- Leading sign handling of `parseInt`: a single optional `+` or `-`. -/
def jsStripSign (cs : List Char) : Bool × List Char :=
  match cs with
  | [] => (false, [])
  | c :: rest =>
      if c = '-' then (true, rest)
      else if c = '+' then (false, rest)
      else (false, c :: rest)

/-- Model of `parseInt(s, 10)`: skip leading whitespace, read an
optional sign, then the longest prefix of decimal digits; `NaN` if that
prefix is empty, otherwise its signed value (trailing junk ignored). -/
def jsParseInt (s : String) : JsNum :=
  let cs := s.data.dropWhile Char.isWhitespace
  let sg := jsStripSign cs
  let ds := sg.2.takeWhile Char.isDigit
  if ds = [] then JsNum.nan
  else JsNum.int (if sg.1 then -(digitsToNat ds : Int) else (digitsToNat ds : Int))

/-- Value of a hexadecimal digit character. -/
def hexVal (c : Char) : Nat :=
  if c.isDigit then c.toNat - 48
  else if 'a' ≤ c ∧ c ≤ 'f' then c.toNat - 87
  else c.toNat - 55

/-- True on `0-9`, `a-f`, `A-F`. -/
def isHexDigit (c : Char) : Bool :=
  c.isDigit || ('a' ≤ c && c ≤ 'f') || ('A' ≤ c && c ≤ 'F')

/-- Hexadecimal branch of radix-free `parseInt`. -/
def jsParseHex (neg : Bool) (cs : List Char) : JsNum :=
  let ds := cs.takeWhile isHexDigit
  if ds = [] then JsNum.nan
  else
    let v : Nat := ds.foldl (fun a c => 16 * a + hexVal c) 0
    JsNum.int (if neg then -(v : Int) else (v : Int))

/-- Model of `parseInt(s)` with no radix argument (used in
`introspect`): after sign handling a `0x` / `0X` prefix selects base 16,
otherwise base 10. -/
def jsParseIntAuto (s : String) : JsNum :=
  let cs := s.data.dropWhile Char.isWhitespace
  let sg := jsStripSign cs
  match sg.2 with
  | '0' :: x :: rest =>
      if x = 'x' ∨ x = 'X' then jsParseHex sg.1 rest
      else
        let ds := sg.2.takeWhile Char.isDigit
        if ds = [] then JsNum.nan
        else JsNum.int (if sg.1 then -(digitsToNat ds : Int) else (digitsToNat ds : Int))
  | _ =>
      let ds := sg.2.takeWhile Char.isDigit
      if ds = [] then JsNum.nan
      else JsNum.int (if sg.1 then -(digitsToNat ds : Int) else (digitsToNat ds : Int))

/-- Character for a single decimal digit. -/
def digitChar : Nat → Char
  | 0 => '0' | 1 => '1' | 2 => '2' | 3 => '3' | 4 => '4'
  | 5 => '5' | 6 => '6' | 7 => '7' | 8 => '8' | _ => '9'

/-- Fuel-indexed digit rendering (structural recursion so that the
kernel can evaluate it on closed inputs; any fuel above the number of
digits gives the same answer). -/
def natDigitsFuel : Nat → Nat → List Char
  | 0, _ => []
  | fuel + 1, n =>
      if n < 10 then [digitChar n]
      else natDigitsFuel fuel (n / 10) ++ [digitChar (n % 10)]

/-- Decimal digit string of a natural number (most significant first),
as `Number.prototype.toString` renders a nonnegative integer. -/
def natDigits (n : Nat) : List Char :=
  natDigitsFuel (n + 1) n

/-- Model of `Number.prototype.toString` on the `JsNum` fragment:
`NaN` renders as `"NaN"`, integers in decimal with a leading `-`. -/
def jsNumToString : JsNum → String
  | JsNum.nan => "NaN"
  | JsNum.int n =>
      if n < 0 then String.mk ('-' :: natDigits n.natAbs)
      else String.mk (natDigits n.natAbs)

/-- Characters emitted by `natDigits` are plain decimal digits; in
particular they are not whitespace, signs, or `*`. -/
def goodDigit (c : Char) : Bool :=
  c.isDigit && !c.isWhitespace && !(c = '-') && !(c = '+') && !(c = '*')

/-- Structured error of the kernel (the `Error` subclass at the top of
`application.js`): a message plus a machine-readable `code`. -/
structure KernelError where
  message : String
  code : String
deriving DecidableEq

/-- One registered interface, as stored in `api.collection[iname]`: the
recorded default version number (`iface.default`) and the version map
(`iface[versionString]`, keyed by the string form of the version) whose
entries map method names to procedures.  Procedures are opaque; they are
modelled by numeric identities (reference identity).  The data-model
invariant of the spec guarantees `default` is present on every
registered interface, which is why it is a total field. -/
structure Iface where
  default : Int
  versions : List (String × List (String × Nat))
deriving DecidableEq

/-- The api collection: interface name to interface record. -/
abbrev Collection := List (String × Iface)

/-- Version resolution of `getMethod`:
`ver === '*' ? iface.default : parseInt(ver, 10)`. -/
def resolveVersion (iface : Iface) (ver : String) : JsNum :=
  if ver = "*" then JsNum.int iface.default else jsParseInt ver

/-- Model of `Application.getMethod(iname, ver, methodName)`.  Each
falsy check (`if (!iface) return null;` and the two below it) is an
`Option` match; stored procedures are functions, hence always truthy,
so `if (!proc)` fires exactly when the key is absent. -/
def getMethod (col : Collection) (iname ver methodName : String) : Option Nat :=
  match col.lookup iname with
  | none => none
  | some iface =>
      match iface.versions.lookup (jsNumToString (resolveVersion iface ver)) with
      | none => none
      | some methods => methods.lookup methodName

/-- Model of `Application.getMethod` with the error channel made
explicit: every JS operation in the body (property reads on existing
objects, `parseInt`, `Number.prototype.toString`) is non-throwing, so
no branch produces `Except.error`; a thrown structured error would be a
`KernelError`. -/
def getMethodE (col : Collection) (iname ver methodName : String) :
    Except KernelError (Option Nat) :=
  match col.lookup iname with
  | none => Except.ok none
  | some iface =>
      match iface.versions.lookup (jsNumToString (resolveVersion iface ver)) with
      | none => Except.ok none
      | some methods =>
          match methods.lookup methodName with
          | none => Except.ok none
          | some proc => Except.ok (some proc)

/-- Model of `Application.getHook(iname)`: the hook is stored under the
default version key (`iface[iface.default]`, a number used as property
key, hence its string form). -/
def getHook (col : Collection) (iname : String) : Option (List (String × Nat)) :=
  match col.lookup iname with
  | none => none
  | some iface => iface.versions.lookup (jsNumToString (JsNum.int iface.default))

/-- Model of `String.prototype.split(sep)` (separator a single
character): `""` splits to `[""]`, and a separator at either end or
doubled yields empty fragments, exactly as in JS. -/
def jsSplit (sep : Char) : List Char → List (List Char)
  | [] => [[]]
  | c :: rest =>
      let r := jsSplit sep rest
      if c = sep then [] :: r else (c :: r.headD []) :: r.tail

/-- Model of JS object assignment `obj[k] = v` on an association list:
overwrite in place when the key exists, else append (insertion order is
what `Object.keys` would report). -/
def jsAssign (l : List (String × Option Nat)) (k : String) (v : Option Nat) :
    List (String × Option Nat) :=
  if l.any (fun kv => kv.1 = k) then
    l.map (fun kv => if kv.1 = k then (k, v) else kv)
  else l ++ [(k, v)]

/-- One iteration of the `introspect` loop body: split the requested
name on `.` (destructuring defaults the version to `'*'` only when the
second fragment is missing), skip unregistered interfaces, and assign
`intro[iname] = signatures[iname + '.' + version]` where `version` is
the resolved version number coerced to a string.  A missing signatures
entry assigns `undefined` (`none`), which still creates the key. -/
def introStep (col : Collection) (sigs : List (String × Nat))
    (intro : List (String × Option Nat)) (interfaceName : String) :
    List (String × Option Nat) :=
  let parts := jsSplit '.' interfaceName.data
  let iname : String := String.mk (parts.headD [])
  let ver : String :=
    match parts.get? 1 with
    | none => "*"
    | some v => String.mk v
  match col.lookup iname with
  | none => intro
  | some iface =>
      let version : JsNum :=
        if ver = "*" then JsNum.int iface.default else jsParseIntAuto ver
      jsAssign intro iname (sigs.lookup (iname ++ "." ++ jsNumToString version))

/-- Model of `Application.introspect(interfaces)`: fold the loop body
over the requested names, starting from the empty object. -/
def introspect (col : Collection) (sigs : List (String × Nat))
    (interfaces : List String) : List (String × Option Nat) :=
  interfaces.foldl (introStep col sigs) []

/-- The eight Place fields of `Application` (`schemas`, `static`,
`resources`, `api`, `lib`, `db`, `domain`, `scheduler`). -/
inductive PlaceName where
  | schemas | staticP | resources | api | lib | db | domain | scheduler
deriving DecidableEq

/-- Directory (and field) name of a place; `staticP` models the JS
field literally named `static`. -/
def placeDir : PlaceName → List Char
  | PlaceName.schemas => "schemas".data
  | PlaceName.staticP => "static".data
  | PlaceName.resources => "resources".data
  | PlaceName.api => "api".data
  | PlaceName.lib => "lib".data
  | PlaceName.db => "db".data
  | PlaceName.domain => "domain".data
  | PlaceName.scheduler => "scheduler".data

/-- Model of the dynamic field access `this[place]` in `startWatch`,
restricted to what the handlers need: the eight place fields carry the
`load` / `change` / `delete` methods; for every other string the
accessed property either is `undefined` or (for non-place fields such
as `starts`, `config`, or inherited `EventEmitter` methods) lacks those
methods, so the subsequent method call throws a `TypeError`.  That
failure case is `none` here. -/
def placeOfName (s : List Char) : Option PlaceName :=
  if s = "schemas".data then some PlaceName.schemas
  else if s = "static".data then some PlaceName.staticP
  else if s = "resources".data then some PlaceName.resources
  else if s = "api".data then some PlaceName.api
  else if s = "lib".data then some PlaceName.lib
  else if s = "db".data then some PlaceName.db
  else if s = "domain".data then some PlaceName.domain
  else if s = "scheduler".data then some PlaceName.scheduler
  else none

/-- Model of `filePath.substring(start)` for a nonnegative start. -/
def jsSubstringFrom (cs : List Char) (start : Nat) : List Char :=
  cs.drop start

/-- Model of `String.prototype.indexOf` for a single character:
`-1` when absent. -/
def jsIndexOf (cs : List Char) (c : Char) : Int :=
  match cs.findIdx? (fun x => x = c) with
  | none => -1
  | some i => (i : Int)

/-- Model of `s.substring(0, e)`: JS clamps a negative end index to 0,
so `indexOf` misses (`e = -1`) produce the empty string; `Int.toNat`
performs exactly that clamping and `take` the length clamping. -/
def jsSubstring0 (cs : List Char) (e : Int) : List Char :=
  cs.take e.toNat

/-- Observable effects of one watcher event: method calls routed to a
place, and `console.debug` lines. -/
inductive WAct where
  | load : PlaceName → List Char → WAct
  | change : PlaceName → List Char → WAct
  | delete : PlaceName → List Char → WAct
  | debugLog : List Char → WAct
deriving DecidableEq

/-- Result of running one watcher handler: the calls/logs it performed
in order, and whether an error escaped the handler (an uncaught
`TypeError` from dereferencing a non-place field). -/
structure WRes where
  actions : List WAct
  errored : Bool
deriving DecidableEq

/-- The place-name computation shared by both watcher handlers:
`relPath = filePath.substring(this.path.length + 1)`,
`place = relPath.substring(0, relPath.indexOf(path.sep))`. -/
def watchRel (appPath filePath : List Char) : List Char :=
  jsSubstringFrom filePath (appPath.length + 1)

def watchPlace (appPath filePath : List Char) : List Char :=
  jsSubstring0 (watchRel appPath filePath) (jsIndexOf (watchRel appPath filePath) '/')

/-- Model of the `change` handler of `startWatch`.  `stat` is the
outcome of `fs.stat(filePath)` at callback time: `none` when it errors
(the event is dropped), `some true` for a directory, `some false` for a
regular file.  `tid` is `node.worker.threadId`.  Directory events call
`place.load`; file events log `Reload:` on worker 1 and call
`place.change`; an unknown place name makes the dynamic call throw. -/
def onChange (appPath : List Char) (tid : Nat) (stat : Option Bool)
    (filePath : List Char) : WRes :=
  let relPath := watchRel appPath filePath
  let place := watchPlace appPath filePath
  match stat with
  | none => ⟨[], false⟩
  | some true =>
      match placeOfName place with
      | some p => ⟨[WAct.load p filePath], false⟩
      | none => ⟨[], true⟩
  | some false =>
      let logs := if tid = 1 then [WAct.debugLog ("Reload: /".data ++ relPath)] else []
      match placeOfName place with
      | some p => ⟨logs ++ [WAct.change p filePath], false⟩
      | none => ⟨logs, true⟩

/-- Model of the `delete` handler of `startWatch`: no stat check; the
place's `delete` is called first, then worker 1 logs `Deleted:`.  For
an unknown place the dynamic call throws before anything is logged. -/
def onDelete (appPath : List Char) (tid : Nat) (filePath : List Char) : WRes :=
  let relPath := watchRel appPath filePath
  let place := watchPlace appPath filePath
  match placeOfName place with
  | some p =>
      ⟨WAct.delete p filePath ::
        (if tid = 1 then [WAct.debugLog ("Deleted: /".data ++ relPath)] else []), false⟩
  | none => ⟨[], true⟩

/-- True on the actions that invoke a place method (as opposed to a
log line). -/
def isPlaceCall : WAct → Bool
  | WAct.load _ _ => true
  | WAct.change _ _ => true
  | WAct.delete _ _ => true
  | WAct.debugLog _ => false

/-- Environment of one `init` run: the settlement outcome of each
place's `load()` (`true` = fulfilled, `false` = rejected), the `auth`
section the api load left in the sandbox api registry (`none` = no
`auth` section; `some none` = section with a null `provider`;
`some (some p)` = provider `p` already published), and the provider
identity `auth(config.sessions)` would construct. -/
structure InitEnv where
  schemasOk : Bool
  staticOk : Bool
  resourcesOk : Bool
  libOk : Bool
  dbOk : Bool
  domainOk : Bool
  apiOk : Bool
  schedulerOk : Bool
  apiAuth : Option (Option Nat)
  newProvider : Nat
deriving DecidableEq

/-- Settlement outcome of `place.load()` under an environment. -/
def loadOk (env : InitEnv) : PlaceName → Bool
  | PlaceName.schemas => env.schemasOk
  | PlaceName.staticP => env.staticOk
  | PlaceName.resources => env.resourcesOk
  | PlaceName.api => env.apiOk
  | PlaceName.lib => env.libOk
  | PlaceName.db => env.dbOk
  | PlaceName.domain => env.domainOk
  | PlaceName.scheduler => env.schedulerOk

/-- Events observable during `init`: a place load settling (with its
outcome), a queued start hook settling, the `console.error` log emitted
by `execute`'s catch for a failed hook, and the construction of a new
auth provider by `auth(config.sessions)`. -/
inductive Ev where
  | load : PlaceName → Bool → Ev
  | hook : Nat → Bool → Ev
  | hookLog : Nat → Ev
  | authNew : Nat → Ev
deriving DecidableEq

/-- Sequential execution of a list of loads with rejection
short-circuit, as in the async arrow
`await lib.load(); await db.load(); await domain.load();`:
a rejected `await` aborts the rest of the branch. -/
def runOps (env : InitEnv) : List PlaceName → List Ev
  | [] => []
  | p :: rest =>
      Ev.load p (loadOk env p) :: (if loadOk env p then runOps env rest else [])

/-- State of the four-branch `Promise.allSettled` fan-out: whether the
`schemas` / `static` / `resources` single-load branches are still
pending, and the remaining loads of the sequential lib-db-domain
branch. -/
structure FanSt where
  b0 : Bool
  b1 : Bool
  b2 : Bool
  b3 : List PlaceName
deriving DecidableEq

/-- Fan-out start state: all four branches pending. -/
def fanStart : FanSt := ⟨true, true, true, [PlaceName.lib, PlaceName.db, PlaceName.domain]⟩

/-- One cooperative scheduling step: branch `i` (0-3) advances by one
load if it has one left; a rejection in the sequential branch discards
its remaining loads.  Indices of finished branches and indices ≥ 4 are
no-ops, so every `sched` list is a valid schedule. -/
def fanStep (env : InitEnv) (s : FanSt) (i : Nat) : List Ev × FanSt :=
  match i with
  | 0 => if s.b0 then ([Ev.load PlaceName.schemas env.schemasOk], { s with b0 := false })
         else ([], s)
  | 1 => if s.b1 then ([Ev.load PlaceName.staticP env.staticOk], { s with b1 := false })
         else ([], s)
  | 2 => if s.b2 then ([Ev.load PlaceName.resources env.resourcesOk], { s with b2 := false })
         else ([], s)
  | 3 =>
      match s.b3 with
      | [] => ([], s)
      | p :: rest =>
          ([Ev.load p (loadOk env p)],
           { s with b3 := if loadOk env p then rest else [] })
  | _ + 4 => ([], s)

/-- Run the fan-out under an explicit interleaving. -/
def runSched (env : InitEnv) : List Nat → FanSt → List Ev × FanSt
  | [], s => ([], s)
  | i :: rest, s =>
      let st1 := fanStep env s i
      let st2 := runSched env rest st1.2
      (st1.1 ++ st2.1, st2.2)

/-- After the chosen interleaving is exhausted, `Promise.allSettled`
still waits for every pending branch: drain them in order. -/
def drain (env : InitEnv) (s : FanSt) : List Ev :=
  (if s.b0 then [Ev.load PlaceName.schemas env.schemasOk] else [])
  ++ (if s.b1 then [Ev.load PlaceName.staticP env.staticOk] else [])
  ++ (if s.b2 then [Ev.load PlaceName.resources env.resourcesOk] else [])
  ++ runOps env s.b3

/-- Complete fan-out trace of `Promise.allSettled([...])` under
interleaving `sched`. -/
def runFanout (env : InitEnv) (sched : List Nat) : List Ev :=
  let p := runSched env sched fanStart
  p.1 ++ drain env p.2

/-- Trace of `Promise.allSettled(this.starts.map((fn) => this.execute(fn)))`
starting at hook index `i`: each hook settles, and a rejected hook is
caught by `execute` which logs the error (`console.error(err.stack)`). -/
def hookTraceFrom (i : Nat) : List Bool → List Ev
  | [] => []
  | ok :: rest =>
      Ev.hook i ok :: (if ok then [] else [Ev.hookLog i]) ++ hookTraceFrom (i + 1) rest

def hookTrace (starts : List Bool) : List Ev :=
  hookTraceFrom 0 starts

/-- The Application state touched by `init` / `shutdown`: the
deployment kind, the two lifecycle flags, the active auth provider
(provider identity, `none` = null), the `auth` section of the sandbox
api registry, and the queued start hooks (each recorded by the outcome
its execution would have). -/
structure AppState where
  kind : String
  initialization : Bool
  finalization : Bool
  auth : Option Nat
  apiAuth : Option (Option Nat)
  starts : List Bool
deriving DecidableEq

/-- The state the `Application` constructor builds (the fields `init`
and `shutdown` read or write): flags `initialization = true`,
`finalization = false`, `auth = null`, no queued starts. -/
def appState0 : AppState :=
  ⟨"", true, false, none, none, []⟩

/-- Provider-construction events of the auth bootstrap: exactly one
when the api registry has an `auth` section with no provider. -/
def authEvents (env : InitEnv) : List Ev :=
  match env.apiAuth with
  | some none => [Ev.authNew env.newProvider]
  | _ => []

/-- The auth bootstrap (the `if (api.auth)` block of `init`): adopt a
published provider, else construct one and publish it both on the
Application and in the api registry's `auth.provider` slot, else do
nothing.  `s.apiAuth` holds the api registry's `auth` section. -/
def authBootstrap (env : InitEnv) (s : AppState) : AppState :=
  match s.apiAuth with
  | none => s
  | some (some p) => { s with auth := some p }
  | some none =>
      { s with auth := some env.newProvider,
               apiAuth := some (some env.newProvider) }

/-- Result of `init`: the event trace, the final Application state,
and whether the returned promise resolved (`true`) or rejected. -/
structure InitResult where
  trace : List Ev
  state : AppState
  resolved : Bool
deriving DecidableEq

/-- Model of `Application.init(kind)`.  In order: record `kind`;
`Promise.allSettled` over the four load branches (interleaved by
`sched`, every branch attempted regardless of failures);
`Promise.allSettled` over the queued start hooks (each isolated by
`execute`); `await this.api.load()` — an *unguarded* await, so its
rejection rejects `init` and skips everything after it; the
conditional scheduler load, likewise unguarded; the auth bootstrap
three-way case on `api.auth`; finally clear `starts` and drop the
`initialization` flag. -/
def runInit (env : InitEnv) (sched : List Nat) (kind : String) (s0 : AppState) :
    InitResult :=
  let s1 : AppState := { s0 with kind := kind }
  let base : List Ev :=
    runFanout env sched ++ hookTrace s0.starts ++ [Ev.load PlaceName.api env.apiOk]
  if env.apiOk = false then
    ⟨base, s1, false⟩
  else
    let s2 : AppState := { s1 with apiAuth := env.apiAuth }
    let schedEvs : List Ev :=
      if kind = "scheduler" then [Ev.load PlaceName.scheduler env.schedulerOk] else []
    if kind = "scheduler" ∧ env.schedulerOk = false then
      ⟨base ++ schedEvs, s2, false⟩
    else
      let s3 : AppState := authBootstrap env s2
      ⟨base ++ schedEvs ++ authEvents env,
       { s3 with starts := [], initialization := false }, true⟩

/-- Events observable during `shutdown`: the finalization flag write,
each module `stop` hook settling, the `console.error` log of a failed
stop (from `execute`'s catch), the server close, the logger close. -/
inductive SEv where
  | setFinalization : Bool → SEv
  | stop : String → String → Bool → SEv
  | stopLog : String → String → SEv
  | serverClose : SEv
  | loggerClose : SEv
deriving DecidableEq

/-- Modules of one sandbox place tree as `stopPlace` sees them: module
name, and `none` when the module has no `stop` hook
(`if (module.stop)` skips it), otherwise the outcome its stop hook
settles with. -/
abbrev PlaceMods := List (String × Option Bool)

/-- Model of `Application.stopPlace(name)`: iterate the place's modules
in key order; every module with a `stop` hook is executed through
`execute`, so a rejection is caught and logged and the loop goes on. -/
def stopPlace (pname : String) : PlaceMods → List SEv
  | [] => []
  | (_, none) :: rest => stopPlace pname rest
  | (m, some ok) :: rest =>
      SEv.stop pname m ok :: (if ok then [] else [SEv.stopLog pname m])
        ++ stopPlace pname rest

/-- Environment of one `shutdown` run: the three module trees reachable
through the sandbox, and whether `this.server` is set. -/
structure ShutEnv where
  domainMods : PlaceMods
  dbMods : PlaceMods
  libMods : PlaceMods
  hasServer : Bool
deriving DecidableEq

/-- Model of `Application.shutdown()`: set `finalization`, stop
`domain`, then `db`, then `lib`, close the server if present, close the
logger last. -/
def shutdown (env : ShutEnv) (s0 : AppState) : List SEv × AppState :=
  (SEv.setFinalization true ::
     (stopPlace "domain" env.domainMods ++ stopPlace "db" env.dbMods
      ++ stopPlace "lib" env.libMods
      ++ (if env.hasServer then [SEv.serverClose] else []) ++ [SEv.loggerClose]),
   { s0 with finalization := true })

/-- The three places of the sequential load chain. -/
def isChainP : PlaceName → Bool
  | PlaceName.lib => true
  | PlaceName.db => true
  | PlaceName.domain => true
  | _ => false

/-- Load events of the sequential lib-db-domain branch. -/
def isChainEv : Ev → Bool
  | Ev.load p _ => isChainP p
  | _ => false

def isSchemasEv : Ev → Bool
  | Ev.load PlaceName.schemas _ => true
  | _ => false

def isStaticEv : Ev → Bool
  | Ev.load PlaceName.staticP _ => true
  | _ => false

def isResourcesEv : Ev → Bool
  | Ev.load PlaceName.resources _ => true
  | _ => false

/-- Events the four fan-out branches can emit (everything but the api
and scheduler loads, hooks, and auth construction). -/
def isFanEv (e : Ev) : Bool :=
  isSchemasEv e || isStaticEv e || isResourcesEv e || isChainEv e

def isHookEv : Ev → Bool
  | Ev.hook _ _ => true
  | Ev.hookLog _ => true
  | _ => false

def isAuthNewEv : Ev → Bool
  | Ev.authNew _ => true
  | _ => false

/-- Reachable remainders of the sequential branch. -/
def ChainSuffix (l : List PlaceName) : Prop :=
  l = [PlaceName.lib, PlaceName.db, PlaceName.domain]
  ∨ l = [PlaceName.db, PlaceName.domain]
  ∨ l = [PlaceName.domain]
  ∨ l = []

/-- Invariant of the fan-out interleaving: the events emitted so far
per branch are exactly the branch's consumed prefix, the sequential
branch remainder is a suffix of the chain, and every emitted event is
a fan-out event. -/
structure FanInv (env : InitEnv) (evs : List Ev) (s : FanSt) : Prop where
  hs : evs.filter isSchemasEv
        = (if s.b0 then [] else [Ev.load PlaceName.schemas env.schemasOk])
  ht : evs.filter isStaticEv
        = (if s.b1 then [] else [Ev.load PlaceName.staticP env.staticOk])
  hr : evs.filter isResourcesEv
        = (if s.b2 then [] else [Ev.load PlaceName.resources env.resourcesOk])
  hsuf : ChainSuffix s.b3
  hc : runOps env [PlaceName.lib, PlaceName.db, PlaceName.domain]
        = evs.filter isChainEv ++ runOps env s.b3
  hall : ∀ e ∈ evs, isFanEv e = true

/-- Events that may follow the api load in an `init` trace: the
conditional scheduler load and the auth-provider construction. -/
def isSchedOrAuthEv : Ev → Bool
  | Ev.load PlaceName.scheduler _ => true
  | Ev.authNew _ => true
  | _ => false

def c3col : Collection := [("chat", ⟨2, [("2", [("send", 11)])]⟩)]

def c4col : Collection := [("chat", ⟨1, [("1", [("send", 7)])]⟩)]

def c9col : Collection := [("chat", ⟨1, [("1", [("send", 7)])]⟩)]

def c9wcol : Collection := [("chat", ⟨1, [("1", [("send", 7)])]⟩)]

def c9wsigs : List (String × Nat) := [("chat.1", 3)]

def c10col : Collection := [("chat", ⟨1, [("1", [("send", 7)])]⟩)]

def c10sigs : List (String × Nat) := [("chat.02", 9)]

def c10wcol : Collection := [("chat", ⟨1, [("1", [("send", 7)])]⟩)]

def c10wsigs : List (String × Nat) := [("chat.5", 3)]

def isSetFinalizationEv : SEv → Bool
  | SEv.setFinalization _ => true
  | _ => false

def c7env : ShutEnv := ⟨[("m1", some false)], [("m2", some true)], [("m3", some true)], true⟩

def c1env : InitEnv :=
  { schemasOk := true, staticOk := true, resourcesOk := true, libOk := true,
    dbOk := true, domainOk := true, apiOk := false, schedulerOk := true,
    apiAuth := none, newProvider := 0 }

def c1wEnv : InitEnv :=
  { schemasOk := false, staticOk := true, resourcesOk := true, libOk := true,
    dbOk := false, domainOk := true, apiOk := true, schedulerOk := true,
    apiAuth := none, newProvider := 0 }

def c1wState : AppState := ⟨"", true, false, none, none, [true, false]⟩

def c6wEnv : InitEnv :=
  { schemasOk := true, staticOk := true, resourcesOk := true, libOk := true,
    dbOk := true, domainOk := true, apiOk := true, schedulerOk := true,
    apiAuth := some none, newProvider := 42 }

def c8env : InitEnv :=
  { schemasOk := true, staticOk := true, resourcesOk := true, libOk := true,
    dbOk := true, domainOk := true, apiOk := false, schedulerOk := true,
    apiAuth := none, newProvider := 0 }

theorem natDigitsFuel_congr :
    ∀ f1 f2 n : Nat, n < f1 → n < f2 → natDigitsFuel f1 n = natDigitsFuel f2 n := by
  intro f1
  induction f1 with
  | zero => intro f2 n h1 _; exact absurd h1 (Nat.not_lt_zero n)
  | succ f ih =>
    intro f2 n h1 h2
    cases f2 with
    | zero => exact absurd h2 (Nat.not_lt_zero n)
    | succ f2 =>
      rw [natDigitsFuel, natDigitsFuel]
      by_cases h : n < 10
      · rw [if_pos h, if_pos h]
      · rw [if_neg h, if_neg h]
        have hlt : n / 10 < n := Nat.div_lt_self (by omega) (by decide)
        rw [ih f2 (n / 10) (by omega) (by omega)]

theorem natDigits_eq (n : Nat) :
    natDigits n
      = if n < 10 then [digitChar n] else natDigits (n / 10) ++ [digitChar (n % 10)] := by
  unfold natDigits
  rw [natDigitsFuel]
  by_cases h : n < 10
  · rw [if_pos h, if_pos h]
  · rw [if_neg h, if_neg h]
    have hlt : n / 10 < n := Nat.div_lt_self (by omega) (by decide)
    rw [natDigitsFuel_congr n (n / 10 + 1) (n / 10) (by omega) (by omega)]

theorem goodDigit_digitChar (d : Nat) : goodDigit (digitChar d) = true := by
  rcases d with _ | _ | _ | _ | _ | _ | _ | _ | _ | _ <;>
    first
      | decide
      | (show goodDigit '9' = true; decide)

theorem natDigits_good : ∀ n, ∀ c ∈ natDigits n, goodDigit c = true := by
  intro n
  induction n using Nat.strong_induction_on with
  | _ n ih =>
    intro c hc
    rw [natDigits_eq] at hc
    by_cases h : n < 10
    · simp only [if_pos h, List.mem_singleton] at hc
      exact hc ▸ goodDigit_digitChar n
    · simp only [if_neg h, List.mem_append, List.mem_singleton] at hc
      rcases hc with hc | hc
      · exact ih (n / 10)
          (Nat.div_lt_self (Nat.lt_of_lt_of_le (by decide) (Nat.le_of_not_lt h)) (by decide))
          c hc
      · exact hc ▸ goodDigit_digitChar (n % 10)

theorem natDigits_ne_nil (n : Nat) : natDigits n ≠ [] := by
  rw [natDigits_eq]
  by_cases h : n < 10 <;> simp [h]

theorem digitsToNat_append (ds : List Char) (c : Char) :
    digitsToNat (ds ++ [c]) = 10 * digitsToNat ds + (c.toNat - 48) := by
  unfold digitsToNat
  rw [List.foldl_append]
  rfl

theorem digitChar_val (d : Nat) (h : d < 10) : (digitChar d).toNat - 48 = d := by
  unfold digitChar
  interval_cases d <;> decide

theorem digitsToNat_natDigits : ∀ n, digitsToNat (natDigits n) = n := by
  intro n
  induction n using Nat.strong_induction_on with
  | _ n ih =>
    rw [natDigits_eq]
    by_cases h : n < 10
    · simp only [if_pos h]
      show digitsToNat [digitChar n] = n
      unfold digitsToNat
      simp [digitChar_val n h]
    · simp only [if_neg h]
      rw [digitsToNat_append,
        ih (n / 10)
          (Nat.div_lt_self (Nat.lt_of_lt_of_le (by decide) (Nat.le_of_not_lt h)) (by decide)),
        digitChar_val (n % 10) (Nat.mod_lt n (by decide))]
      omega

theorem goodDigit_props {c : Char} (h : goodDigit c = true) :
    c.isDigit = true ∧ c.isWhitespace = false ∧ c ≠ '-' ∧ c ≠ '+' ∧ c ≠ '*' := by
  unfold goodDigit at h
  simp only [Bool.and_eq_true, Bool.not_eq_true', decide_eq_false_iff_not] at h
  exact ⟨h.1.1.1.1, h.1.1.1.2, h.1.1.2, h.1.2, h.2⟩

theorem jsStripSign_no_sign {c : Char} (cs : List Char) (h1 : c ≠ '-') (h2 : c ≠ '+') :
    jsStripSign (c :: cs) = (false, c :: cs) := by
  simp [jsStripSign, h1, h2]

theorem jsParseInt_digits (ds : List Char) (hne : ds ≠ [])
    (hd : ∀ c ∈ ds, goodDigit c = true) :
    jsParseInt (String.mk ds) = JsNum.int (digitsToNat ds) := by
  obtain ⟨c, cs, rfl⟩ : ∃ c cs, ds = c :: cs := by
    cases ds with
    | nil => exact absurd rfl hne
    | cons c cs => exact ⟨c, cs, rfl⟩
  have hc := goodDigit_props (hd c (List.mem_cons_self c cs))
  unfold jsParseInt
  show ((if _ = _ then _ else _) : JsNum) = _
  rw [show (String.mk (c :: cs)).data = c :: cs from rfl]
  rw [List.dropWhile_cons_of_neg (by simp [hc.2.1]), jsStripSign_no_sign cs hc.2.2.1 hc.2.2.2.1]
  have htake : (c :: cs).takeWhile Char.isDigit = c :: cs :=
    List.takeWhile_eq_self_iff.mpr (fun x hx => (goodDigit_props (hd x hx)).1)
  simp [htake]

/-- Round trip: `parseInt(n.toString(), 10)` recovers any integer `n`
(this backs the claim that the `'*'` alias and the printed default
version resolve identically). -/
theorem jsParseInt_jsNumToString (n : Int) :
    jsParseInt (jsNumToString (JsNum.int n)) = JsNum.int n := by
  rw [show jsNumToString (JsNum.int n)
      = if n < 0 then String.mk ('-' :: natDigits n.natAbs)
        else String.mk (natDigits n.natAbs) from rfl]
  by_cases hn : n < 0
  · rw [if_pos hn]
    have hd := natDigits_good n.natAbs
    have htake : (natDigits n.natAbs).takeWhile Char.isDigit = natDigits n.natAbs :=
      List.takeWhile_eq_self_iff.mpr (fun x hx => (goodDigit_props (hd x hx)).1)
    unfold jsParseInt
    dsimp only
    rw [List.dropWhile_cons_of_neg (by decide),
      show jsStripSign ('-' :: natDigits n.natAbs) = (true, natDigits n.natAbs) by
        simp [jsStripSign]]
    dsimp only
    rw [htake, if_neg (natDigits_ne_nil n.natAbs), if_pos rfl, digitsToNat_natDigits]
    congr 1
    omega
  · rw [if_neg hn]
    rw [jsParseInt_digits _ (natDigits_ne_nil _) (natDigits_good _), digitsToNat_natDigits]
    congr 1
    omega

/-- The printed form of an integer is never the wildcard string `"*"`. -/
theorem jsNumToString_ne_star (n : Int) : jsNumToString (JsNum.int n) ≠ "*" := by
  rw [show jsNumToString (JsNum.int n)
      = if n < 0 then String.mk ('-' :: natDigits n.natAbs)
        else String.mk (natDigits n.natAbs) from rfl]
  by_cases hn : n < 0
  · rw [if_pos hn]
    intro h
    have : ('-' :: natDigits n.natAbs) = ['*'] := by
      have := congrArg String.data h
      simpa using this
    simp at this
  · rw [if_neg hn]
    intro h
    have hdata : natDigits n.natAbs = ['*'] := by
      have := congrArg String.data h
      simpa using this
    have := natDigits_good n.natAbs '*' (by rw [hdata]; exact List.mem_singleton_self _)
    have := (goodDigit_props this).2.2.2.2
    exact this rfl

theorem getMethodE_eq_ok (col : Collection) (iname ver methodName : String) :
    getMethodE col iname ver methodName = Except.ok (getMethod col iname ver methodName) := by
  unfold getMethodE getMethod
  cases col.lookup iname with
  | none => rfl
  | some iface =>
    dsimp only
    cases iface.versions.lookup (jsNumToString (resolveVersion iface ver)) with
    | none => rfl
    | some ms =>
      dsimp only
      cases ms.lookup methodName <;> rfl

theorem fanInv_start (env : InitEnv) : FanInv env [] fanStart := by
  refine ⟨?_, ?_, ?_, ?_, ?_, ?_⟩ <;>
    simp [fanStart, ChainSuffix, List.filter_nil]

theorem runOps_chain_events (env : InitEnv) :
    ∀ l, (∀ p ∈ l, isChainP p = true) → ∀ e ∈ runOps env l, isChainEv e = true := by
  intro l
  induction l with
  | nil => intro _ e he; simp [runOps] at he
  | cons p rest ih =>
    intro hl e he
    rw [runOps, List.mem_cons] at he
    rcases he with he | he
    · subst he
      simp [isChainEv, hl p (List.mem_cons_self p rest)]
    · by_cases hok : loadOk env p
      · rw [if_pos hok] at he
        exact ih (fun q hq => hl q (List.mem_cons_of_mem p hq)) e he
      · rw [if_neg hok] at he
        simp at he

theorem chainSuffix_all (l : List PlaceName) (h : ChainSuffix l) :
    ∀ p ∈ l, isChainP p = true := by
  rcases h with h | h | h | h <;> subst h <;> intro p hp <;> simp at hp <;>
    first
      | (rcases hp with hp | hp | hp <;> subst hp <;> rfl)
      | (rcases hp with hp | hp <;> subst hp <;> rfl)
      | (subst hp; rfl)

theorem filter_snoc (f : Ev → Bool) (l : List Ev) (e : Ev) :
    (l ++ [e]).filter f = l.filter f ++ (if f e then [e] else []) := by
  rw [List.filter_append]
  simp [List.filter_cons]

theorem mem_append_all {new : List Ev} (evs : List Ev)
    (hall : ∀ e ∈ evs, isFanEv e = true) (hnew : ∀ e ∈ new, isFanEv e = true) :
    ∀ e ∈ evs ++ new, isFanEv e = true := by
  intro e he
  rcases List.mem_append.mp he with he | he
  · exact hall e he
  · exact hnew e he

theorem fanStep_inv (env : InitEnv) (evs : List Ev) (s : FanSt) (i : Nat)
    (h : FanInv env evs s) :
    FanInv env (evs ++ (fanStep env s i).1) (fanStep env s i).2 := by
  obtain ⟨hs, ht, hr, hsuf, hc, hall⟩ := h
  rcases i with _ | _ | _ | _ | i
  · -- branch 0: schemas
    by_cases hb : s.b0
    · rw [show fanStep env s 0
          = ([Ev.load PlaceName.schemas env.schemasOk], { s with b0 := false }) by
        simp [fanStep, hb]]
      refine ⟨?_, ?_, ?_, hsuf, ?_, ?_⟩
      · rw [filter_snoc, hs]
        simp [isSchemasEv, hb]
      · rw [filter_snoc, ht]
        simp [isStaticEv]
      · rw [filter_snoc, hr]
        simp [isResourcesEv]
      · rw [filter_snoc]
        simp only [show isChainEv (Ev.load PlaceName.schemas env.schemasOk) = false from rfl,
          if_neg (Bool.false_ne_true), List.append_nil]
        exact hc
      · exact mem_append_all evs hall (by intro e he; simp at he; subst he; rfl)
    · rw [show fanStep env s 0 = ([], s) by simp [fanStep, hb], List.append_nil]
      exact ⟨hs, ht, hr, hsuf, hc, hall⟩
  · -- branch 1: static
    by_cases hb : s.b1
    · rw [show fanStep env s 1
          = ([Ev.load PlaceName.staticP env.staticOk], { s with b1 := false }) by
        simp [fanStep, hb]]
      refine ⟨?_, ?_, ?_, hsuf, ?_, ?_⟩
      · rw [filter_snoc, hs]
        simp [isSchemasEv]
      · rw [filter_snoc, ht]
        simp [isStaticEv, hb]
      · rw [filter_snoc, hr]
        simp [isResourcesEv]
      · rw [filter_snoc]
        simp only [show isChainEv (Ev.load PlaceName.staticP env.staticOk) = false from rfl,
          if_neg (Bool.false_ne_true), List.append_nil]
        exact hc
      · exact mem_append_all evs hall (by intro e he; simp at he; subst he; rfl)
    · rw [show fanStep env s 1 = ([], s) by simp [fanStep, hb], List.append_nil]
      exact ⟨hs, ht, hr, hsuf, hc, hall⟩
  · -- branch 2: resources
    by_cases hb : s.b2
    · rw [show fanStep env s 2
          = ([Ev.load PlaceName.resources env.resourcesOk], { s with b2 := false }) by
        simp [fanStep, hb]]
      refine ⟨?_, ?_, ?_, hsuf, ?_, ?_⟩
      · rw [filter_snoc, hs]
        simp [isSchemasEv]
      · rw [filter_snoc, ht]
        simp [isStaticEv]
      · rw [filter_snoc, hr]
        simp [isResourcesEv, hb]
      · rw [filter_snoc]
        simp only [show isChainEv (Ev.load PlaceName.resources env.resourcesOk) = false from rfl,
          if_neg (Bool.false_ne_true), List.append_nil]
        exact hc
      · exact mem_append_all evs hall (by intro e he; simp at he; subst he; rfl)
    · rw [show fanStep env s 2 = ([], s) by simp [fanStep, hb], List.append_nil]
      exact ⟨hs, ht, hr, hsuf, hc, hall⟩
  · -- branch 3: the sequential chain
    rcases hsuf with h3 | h3 | h3 | h3
    · -- b3 = [lib, db, domain]
      rw [show fanStep env s 3
          = ([Ev.load PlaceName.lib (loadOk env PlaceName.lib)],
             { s with b3 := if loadOk env PlaceName.lib
                then [PlaceName.db, PlaceName.domain] else [] }) by
        simp [fanStep, h3]]
      refine ⟨?_, ?_, ?_, ?_, ?_, ?_⟩
      · rw [filter_snoc, hs]
        simp [isSchemasEv, isChainP]
      · rw [filter_snoc, ht]
        simp [isStaticEv]
      · rw [filter_snoc, hr]
        simp [isResourcesEv]
      · by_cases hok : loadOk env PlaceName.lib <;>
          simp [ChainSuffix, hok]
      · rw [filter_snoc]
        simp only [show isChainEv (Ev.load PlaceName.lib (loadOk env PlaceName.lib)) = true
          from rfl, if_pos rfl]
        rw [hc, h3]
        by_cases hok : loadOk env PlaceName.lib
        · rw [show runOps env [PlaceName.lib, PlaceName.db, PlaceName.domain]
              = Ev.load PlaceName.lib (loadOk env PlaceName.lib)
                :: runOps env [PlaceName.db, PlaceName.domain] by
            rw [runOps, if_pos hok]]
          simp [hok]
        · rw [show runOps env [PlaceName.lib, PlaceName.db, PlaceName.domain]
              = [Ev.load PlaceName.lib (loadOk env PlaceName.lib)] by
            rw [runOps, if_neg hok]]
          simp [hok, runOps]
      · exact mem_append_all evs hall (by intro e he; simp at he; subst he; rfl)
    · -- b3 = [db, domain]
      rw [show fanStep env s 3
          = ([Ev.load PlaceName.db (loadOk env PlaceName.db)],
             { s with b3 := if loadOk env PlaceName.db then [PlaceName.domain] else [] }) by
        simp [fanStep, h3]]
      refine ⟨?_, ?_, ?_, ?_, ?_, ?_⟩
      · rw [filter_snoc, hs]
        simp [isSchemasEv]
      · rw [filter_snoc, ht]
        simp [isStaticEv]
      · rw [filter_snoc, hr]
        simp [isResourcesEv]
      · by_cases hok : loadOk env PlaceName.db <;>
          simp [ChainSuffix, hok]
      · rw [filter_snoc]
        simp only [show isChainEv (Ev.load PlaceName.db (loadOk env PlaceName.db)) = true
          from rfl, if_pos rfl]
        rw [hc, h3]
        by_cases hok : loadOk env PlaceName.db
        · rw [show runOps env [PlaceName.db, PlaceName.domain]
              = Ev.load PlaceName.db (loadOk env PlaceName.db)
                :: runOps env [PlaceName.domain] by
            rw [runOps, if_pos hok]]
          simp [hok]
        · rw [show runOps env [PlaceName.db, PlaceName.domain]
              = [Ev.load PlaceName.db (loadOk env PlaceName.db)] by
            rw [runOps, if_neg hok]]
          simp [hok, runOps]
      · exact mem_append_all evs hall (by intro e he; simp at he; subst he; rfl)
    · -- b3 = [domain]
      rw [show fanStep env s 3
          = ([Ev.load PlaceName.domain (loadOk env PlaceName.domain)],
             { s with b3 := if loadOk env PlaceName.domain then [] else [] }) by
        simp [fanStep, h3]]
      refine ⟨?_, ?_, ?_, ?_, ?_, ?_⟩
      · rw [filter_snoc, hs]
        simp [isSchemasEv]
      · rw [filter_snoc, ht]
        simp [isStaticEv]
      · rw [filter_snoc, hr]
        simp [isResourcesEv]
      · simp [ChainSuffix]
      · rw [filter_snoc]
        simp only [show isChainEv (Ev.load PlaceName.domain (loadOk env PlaceName.domain)) = true
          from rfl, if_pos rfl]
        rw [hc, h3]
        rw [show runOps env [PlaceName.domain]
            = [Ev.load PlaceName.domain (loadOk env PlaceName.domain)] by
          rw [runOps]; simp [runOps]]
        simp [runOps]
      · exact mem_append_all evs hall (by intro e he; simp at he; subst he; rfl)
    · -- b3 = []
      rw [show fanStep env s 3 = ([], s) by simp [fanStep, h3], List.append_nil]
      exact ⟨hs, ht, hr, Or.inr (Or.inr (Or.inr h3)), hc, hall⟩
  · -- indices ≥ 4 are no-ops
    rw [show fanStep env s (i + 4) = ([], s) from rfl, List.append_nil]
    exact ⟨hs, ht, hr, hsuf, hc, hall⟩

theorem runSched_inv (env : InitEnv) :
    ∀ (sched : List Nat) (evs : List Ev) (s : FanSt), FanInv env evs s →
      FanInv env (evs ++ (runSched env sched s).1) (runSched env sched s).2 := by
  intro sched
  induction sched with
  | nil =>
    intro evs s h
    rw [show runSched env [] s = ([], s) from rfl, List.append_nil]
    exact h
  | cons i rest ih =>
    intro evs s h
    rw [show runSched env (i :: rest) s
        = ((fanStep env s i).1 ++ (runSched env rest (fanStep env s i).2).1,
           (runSched env rest (fanStep env s i).2).2) from rfl]
    rw [← List.append_assoc]
    exact ih (evs ++ (fanStep env s i).1) (fanStep env s i).2 (fanStep_inv env evs s i h)

theorem chainEv_not_other (e : Ev) (h : isChainEv e = true) :
    isSchemasEv e = false ∧ isStaticEv e = false ∧ isResourcesEv e = false := by
  cases e with
  | load p b =>
    cases p <;>
      simp_all [isChainEv, isChainP, isSchemasEv, isStaticEv, isResourcesEv]
  | hook i b => simp [isChainEv] at h
  | hookLog i => simp [isChainEv] at h
  | authNew p => simp [isChainEv] at h

/-- Global facts about the fan-out trace, for any interleaving: each of
the three single-load branches settles exactly once, the chain branch
contributes exactly its sequential short-circuit trace (so its loads
appear in lib-db-domain order), and nothing but fan-out events occur. -/
theorem runFanout_spec (env : InitEnv) (sched : List Nat) :
    (runFanout env sched).filter isSchemasEv = [Ev.load PlaceName.schemas env.schemasOk]
    ∧ (runFanout env sched).filter isStaticEv = [Ev.load PlaceName.staticP env.staticOk]
    ∧ (runFanout env sched).filter isResourcesEv = [Ev.load PlaceName.resources env.resourcesOk]
    ∧ (runFanout env sched).filter isChainEv
        = runOps env [PlaceName.lib, PlaceName.db, PlaceName.domain]
    ∧ ∀ e ∈ runFanout env sched, isFanEv e = true := by
  obtain ⟨hs, ht, hr, hsuf, hc, hall⟩ :=
    runSched_inv env sched [] fanStart (fanInv_start env)
  simp only [List.nil_append] at hs ht hr hc hall
  have hchainAll : ∀ e ∈ runOps env (runSched env sched fanStart).2.b3, isChainEv e = true :=
    runOps_chain_events env _ (chainSuffix_all _ hsuf)
  have hfan : runFanout env sched
      = (runSched env sched fanStart).1 ++ drain env (runSched env sched fanStart).2 := rfl
  have hdrain : drain env (runSched env sched fanStart).2
      = (if (runSched env sched fanStart).2.b0
          then [Ev.load PlaceName.schemas env.schemasOk] else [])
        ++ ((if (runSched env sched fanStart).2.b1
          then [Ev.load PlaceName.staticP env.staticOk] else [])
        ++ ((if (runSched env sched fanStart).2.b2
          then [Ev.load PlaceName.resources env.resourcesOk] else [])
        ++ runOps env (runSched env sched fanStart).2.b3)) := by
    rw [drain]
    simp [List.append_assoc]
  have hrosS : List.filter isSchemasEv
      (runOps env (runSched env sched fanStart).2.b3) = [] :=
    List.filter_eq_nil_iff.mpr (fun e he => by
      simp [(chainEv_not_other e (hchainAll e he)).1])
  have hrosT : List.filter isStaticEv
      (runOps env (runSched env sched fanStart).2.b3) = [] :=
    List.filter_eq_nil_iff.mpr (fun e he => by
      simp [(chainEv_not_other e (hchainAll e he)).2.1])
  have hrosR : List.filter isResourcesEv
      (runOps env (runSched env sched fanStart).2.b3) = [] :=
    List.filter_eq_nil_iff.mpr (fun e he => by
      simp [(chainEv_not_other e (hchainAll e he)).2.2])
  refine ⟨?_, ?_, ?_, ?_, ?_⟩
  · rw [hfan, List.filter_append, hs, hdrain]
    rw [List.filter_append, List.filter_append, List.filter_append, hrosS]
    by_cases h0 : (runSched env sched fanStart).2.b0 <;>
      by_cases h1 : (runSched env sched fanStart).2.b1 <;>
      by_cases h2 : (runSched env sched fanStart).2.b2 <;>
      simp [h0, h1, h2, isSchemasEv, isStaticEv, isResourcesEv]
  · rw [hfan, List.filter_append, ht, hdrain]
    rw [List.filter_append, List.filter_append, List.filter_append, hrosT]
    by_cases h0 : (runSched env sched fanStart).2.b0 <;>
      by_cases h1 : (runSched env sched fanStart).2.b1 <;>
      by_cases h2 : (runSched env sched fanStart).2.b2 <;>
      simp [h0, h1, h2, isSchemasEv, isStaticEv, isResourcesEv]
  · rw [hfan, List.filter_append, hr, hdrain]
    rw [List.filter_append, List.filter_append, List.filter_append, hrosR]
    by_cases h0 : (runSched env sched fanStart).2.b0 <;>
      by_cases h1 : (runSched env sched fanStart).2.b1 <;>
      by_cases h2 : (runSched env sched fanStart).2.b2 <;>
      simp [h0, h1, h2, isSchemasEv, isStaticEv, isResourcesEv]
  · rw [hfan, List.filter_append, hdrain]
    rw [List.filter_append, List.filter_append, List.filter_append]
    rw [List.filter_eq_self.mpr hchainAll]
    have hnil : ∀ (b : Bool) (p : PlaceName) (ok : Bool), isChainP p = false →
        List.filter isChainEv (if b then [Ev.load p ok] else []) = [] := by
      intro b p ok hp
      cases b <;> simp [isChainEv, hp]
    rw [hnil _ PlaceName.schemas _ rfl, hnil _ PlaceName.staticP _ rfl,
      hnil _ PlaceName.resources _ rfl]
    rw [List.nil_append, List.nil_append, List.nil_append]
    rw [hc]
  · rw [hfan]
    intro e he
    rcases List.mem_append.mp he with he | he
    · exact hall e he
    · rw [hdrain] at he
      rcases List.mem_append.mp he with he | he
      · rcases (runSched env sched fanStart).2.b0 <;> simp_all [isFanEv, isSchemasEv]
      rcases List.mem_append.mp he with he | he
      · rcases (runSched env sched fanStart).2.b1 <;> simp_all [isFanEv, isStaticEv, isSchemasEv]
      rcases List.mem_append.mp he with he | he
      · rcases (runSched env sched fanStart).2.b2 <;>
          simp_all [isFanEv, isResourcesEv, isSchemasEv, isStaticEv]
      · have := hchainAll e he
        simp [isFanEv, this]

theorem hookTraceFrom_all (l : List Bool) :
    ∀ i, ∀ e ∈ hookTraceFrom i l, isHookEv e = true := by
  induction l with
  | nil => intro i e he; simp [hookTraceFrom] at he
  | cons ok rest ih =>
    intro i e he
    rw [hookTraceFrom] at he
    rcases List.mem_append.mp he with he | he
    · rw [List.mem_cons] at he
      rcases he with he | he
      · subst he; rfl
      · cases ok <;> simp_all [isHookEv]
    · exact ih (i + 1) e he

theorem hookTraceFrom_log (l : List Bool) :
    ∀ i j, l.get? j = some false → Ev.hookLog (i + j) ∈ hookTraceFrom i l := by
  induction l with
  | nil => intro i j h; simp at h
  | cons ok rest ih =>
    intro i j h
    cases j with
    | zero =>
      simp only [List.get?_cons_zero, Option.some.injEq] at h
      subst h
      rw [hookTraceFrom]
      refine List.mem_append_left _ (List.mem_cons_of_mem _ ?_)
      simp
    | succ j =>
      rw [List.get?_cons_succ] at h
      have := ih (i + 1) j h
      rw [hookTraceFrom]
      refine List.mem_append_right _ ?_
      rw [show i + (j + 1) = i + 1 + j by omega]
      exact this

theorem hookTrace_log (l : List Bool) (j : Nat) (h : l.get? j = some false) :
    Ev.hookLog j ∈ hookTrace l := by
  have := hookTraceFrom_log l 0 j h
  rw [Nat.zero_add] at this
  exact this

theorem fanEv_cases (e : Ev) (h : isFanEv e = true) :
    (∀ b, e ≠ Ev.load PlaceName.api b) ∧ (∀ b, e ≠ Ev.load PlaceName.scheduler b)
    ∧ isAuthNewEv e = false ∧ isHookEv e = false := by
  cases e with
  | load p b =>
    cases p <;>
      simp_all [isFanEv, isSchemasEv, isStaticEv, isResourcesEv, isChainEv, isChainP,
        isAuthNewEv, isHookEv]
  | hook i b =>
    simp [isFanEv, isSchemasEv, isStaticEv, isResourcesEv, isChainEv] at h
  | hookLog i =>
    simp [isFanEv, isSchemasEv, isStaticEv, isResourcesEv, isChainEv] at h
  | authNew p =>
    simp [isFanEv, isSchemasEv, isStaticEv, isResourcesEv, isChainEv] at h

theorem hookEv_cases (e : Ev) (h : isHookEv e = true) :
    (∀ p b, e ≠ Ev.load p b) ∧ isAuthNewEv e = false := by
  cases e <;> simp_all [isHookEv, isAuthNewEv]

theorem runFanout_mem (env : InitEnv) (sched : List Nat) :
    Ev.load PlaceName.schemas env.schemasOk ∈ runFanout env sched
    ∧ Ev.load PlaceName.staticP env.staticOk ∈ runFanout env sched
    ∧ Ev.load PlaceName.resources env.resourcesOk ∈ runFanout env sched
    ∧ Ev.load PlaceName.lib env.libOk ∈ runFanout env sched := by
  obtain ⟨hs, ht, hr, hc, _⟩ := runFanout_spec env sched
  refine ⟨?_, ?_, ?_, ?_⟩
  · exact List.mem_of_mem_filter (by rw [hs]; exact List.mem_singleton_self _)
  · exact List.mem_of_mem_filter (by rw [ht]; exact List.mem_singleton_self _)
  · exact List.mem_of_mem_filter (by rw [hr]; exact List.mem_singleton_self _)
  · refine List.mem_of_mem_filter (p := isChainEv) ?_
    rw [hc, runOps]
    exact List.mem_cons_self _ _

/-- Structure of every `init` trace: the fan-out events, then the hook
events, then the api load, then only scheduler-load and
auth-construction events. -/
theorem runInit_trace_shape (env : InitEnv) (sched : List Nat) (kind : String)
    (s0 : AppState) :
    ∃ post, (runInit env sched kind s0).trace
        = runFanout env sched
          ++ (hookTrace s0.starts ++ (Ev.load PlaceName.api env.apiOk :: post))
      ∧ ∀ e ∈ post, isSchedOrAuthEv e = true := by
  by_cases hapi : env.apiOk = false
  · refine ⟨[], ?_, by intro e he; simp at he⟩
    simp [runInit, hapi]
  · by_cases hks : kind = "scheduler" ∧ env.schedulerOk = false
    · refine ⟨[Ev.load PlaceName.scheduler env.schedulerOk], ?_, ?_⟩
      · simp [runInit, hapi, hks]
      · intro e he
        simp only [List.mem_singleton] at he
        subst he
        rfl
    · refine ⟨(if kind = "scheduler" then [Ev.load PlaceName.scheduler env.schedulerOk] else [])
        ++ authEvents env, ?_, ?_⟩
      · rcases haa : env.apiAuth with _ | (_ | p) <;>
          simp [runInit, hapi, hks, haa, authEvents, List.append_assoc]
      · intro e he
        rcases List.mem_append.mp he with he | he
        · by_cases hk : kind = "scheduler"
          · rw [if_pos hk] at he
            simp only [List.mem_singleton] at he
            subst he
            rfl
          · rw [if_neg hk] at he
            simp at he
        · unfold authEvents at he
          rcases haa : env.apiAuth with _ | (_ | p) <;> rw [haa] at he <;> simp at he
          subst he
          rfl

theorem stringMk_data (s : String) : String.mk s.data = s := by
  cases s
  rfl

theorem findIdx_eq_none_of_not_mem (l : List Char) (c : Char) (h : c ∉ l) :
    l.findIdx? (fun x => x = c) = none := by
  induction l with
  | nil => simp
  | cons x xs ih =>
    have hx : x ≠ c := fun hh => h (hh ▸ List.mem_cons_self x xs)
    rw [List.findIdx?_cons, if_neg (by simp [hx]), List.findIdx?_succ]
    rw [ih (fun hm => h (List.mem_cons_of_mem _ hm))]
    rfl

theorem jsIndexOf_sep (l r : List Char) (c : Char) (h : c ∉ l) :
    jsIndexOf (l ++ c :: r) c = (l.length : Int) := by
  unfold jsIndexOf
  rw [List.findIdx?_append, findIdx_eq_none_of_not_mem l c h, Option.none_or,
    List.findIdx?_cons, if_pos (by simp)]
  simp

theorem watchPlace_concat (appPath pd rest : List Char) (hnp : '/' ∉ pd) :
    watchPlace appPath (appPath ++ '/' :: (pd ++ '/' :: rest)) = pd := by
  unfold watchPlace watchRel jsSubstringFrom
  rw [show appPath ++ '/' :: (pd ++ '/' :: rest)
      = (appPath ++ ['/']) ++ (pd ++ '/' :: rest) by simp]
  rw [show appPath.length + 1 = (appPath ++ ['/']).length by simp]
  rw [List.drop_left, jsIndexOf_sep pd rest '/' hnp]
  unfold jsSubstring0
  rw [Int.toNat_natCast, List.take_left]

theorem watchRel_concat (appPath tail : List Char) :
    watchRel appPath (appPath ++ '/' :: tail) = tail := by
  unfold watchRel jsSubstringFrom
  rw [show appPath ++ '/' :: tail = (appPath ++ ['/']) ++ tail by simp]
  rw [show appPath.length + 1 = (appPath ++ ['/']).length by simp]
  rw [List.drop_left]

theorem placeDir_no_sep (p : PlaceName) : '/' ∉ placeDir p := by
  cases p <;> decide

theorem placeOfName_placeDir (p : PlaceName) : placeOfName (placeDir p) = some p := by
  cases p <;> decide

theorem jsSplit_no_sep (sep : Char) (l : List Char) (h : sep ∉ l) :
    jsSplit sep l = [l] := by
  induction l with
  | nil => rfl
  | cons c rest ih =>
    have hc : c ≠ sep := fun hh => h (hh ▸ List.mem_cons_self c rest)
    rw [jsSplit]
    rw [ih (fun hm => h (List.mem_cons_of_mem _ hm))]
    simp [hc]

theorem jsSplit_two (sep : Char) (a b : List Char) (ha : sep ∉ a) (hb : sep ∉ b) :
    jsSplit sep (a ++ sep :: b) = [a, b] := by
  induction a with
  | nil =>
    rw [List.nil_append, jsSplit, jsSplit_no_sep sep b hb]
    simp
  | cons c rest ih =>
    have hc : c ≠ sep := fun hh => ha (hh ▸ List.mem_cons_self c rest)
    rw [List.cons_append, jsSplit]
    rw [ih (fun hm => ha (List.mem_cons_of_mem _ hm))]
    simp [hc]

/-- Computation of `introspect` on a single `name.version` request with
a registered interface: the result is exactly one entry, keyed by the
interface name and valued at the signatures entry for the parsed
version's string form. -/
theorem introspect_single (col : Collection) (sigs : List (String × Nat))
    (iname v : String) (iface : Iface)
    (hif : col.lookup iname = some iface)
    (hdi : '.' ∉ iname.data) (hdv : '.' ∉ v.data) (hv : v ≠ "*") :
    introspect col sigs [iname ++ "." ++ v]
      = [(iname, sigs.lookup (iname ++ "." ++ jsNumToString (jsParseIntAuto v)))] := by
  unfold introspect
  rw [List.foldl_cons, List.foldl_nil]
  unfold introStep
  have hdata : (iname ++ "." ++ v).data = iname.data ++ '.' :: v.data := by
    simp [String.data_append]
  rw [hdata, jsSplit_two '.' _ _ hdi hdv]
  dsimp only [List.headD, List.get?]
  rw [stringMk_data, stringMk_data, hif]
  dsimp only
  rw [if_neg hv]
  unfold jsAssign
  simp

/-- Computation of `introspect` on a single dot-free unregistered
name: the loop body skips it and the result object stays empty. -/
theorem introspect_single_missing (col : Collection) (sigs : List (String × Nat))
    (x : String) (hd : '.' ∉ x.data) (hx : col.lookup x = none) :
    introspect col sigs [x] = [] := by
  unfold introspect
  rw [List.foldl_cons, List.foldl_nil]
  unfold introStep
  rw [jsSplit_no_sep '.' x.data hd]
  dsimp only [List.headD, List.get?]
  rw [stringMk_data, hx]

/-- C3 (confirmed).  For every registered interface `I` with default
version `d` and every method name `m`, `getMethod(I, '*', m)` returns
the same result as `getMethod(I, d.toString(), m)`: the `'*'` version
resolves to the recorded default version, and `parseInt` recovers the
default from its printed form. -/
theorem c3_star_resolves_default (col : Collection) (iname m : String) (iface : Iface)
    (hif : col.lookup iname = some iface) :
    getMethod col iname "*" m
      = getMethod col iname (jsNumToString (JsNum.int iface.default)) m := by
  have h1 : resolveVersion iface "*" = JsNum.int iface.default := by
    unfold resolveVersion
    rw [if_pos rfl]
  have h2 : resolveVersion iface (jsNumToString (JsNum.int iface.default))
      = JsNum.int iface.default := by
    unfold resolveVersion
    rw [if_neg (jsNumToString_ne_star iface.default), jsParseInt_jsNumToString]
  unfold getMethod
  rw [hif]
  dsimp only
  rw [h1, h2]

/-- Witness for C3 at a concrete registry. -/
theorem c3_witness :
    getMethod c3col "chat" "*" "send"
      = getMethod c3col "chat"
          (jsNumToString (JsNum.int (Iface.default ⟨2, [("2", [("send", 11)])]⟩))) "send" :=
  c3_star_resolves_default c3col "chat" "send" ⟨2, [("2", [("send", 11)])]⟩ rfl

/-- C4 (confirmed).  Resolution misses never raise: `getMethod` (here
with its error channel explicit) always returns normally, yielding
`null` whenever the interface, the resolved version, or the method is
absent; and a dot-free unregistered interface name gives
`getMethod(X, '*', m) = null` and `introspect([X]) = {}`. -/
theorem c4_misses_return_null (col : Collection) (sigs : List (String × Nat))
    (iname ver m : String) :
    getMethodE col iname ver m = Except.ok (getMethod col iname ver m)
    ∧ (col.lookup iname = none → getMethod col iname ver m = none)
    ∧ (∀ iface, col.lookup iname = some iface →
        iface.versions.lookup (jsNumToString (resolveVersion iface ver)) = none →
        getMethod col iname ver m = none)
    ∧ (∀ iface ms, col.lookup iname = some iface →
        iface.versions.lookup (jsNumToString (resolveVersion iface ver)) = some ms →
        ms.lookup m = none → getMethod col iname ver m = none)
    ∧ ('.' ∉ iname.data → col.lookup iname = none →
        getMethod col iname "*" m = none ∧ introspect col sigs [iname] = []) := by
  refine ⟨getMethodE_eq_ok col iname ver m, ?_, ?_, ?_, ?_⟩
  · intro h
    unfold getMethod
    rw [h]
  · intro iface hif hver
    unfold getMethod
    rw [hif]
    dsimp only
    rw [hver]
  · intro iface ms hif hver hm
    unfold getMethod
    rw [hif]
    dsimp only
    rw [hver]
    dsimp only
    rw [hm]
  · intro hd hx
    refine ⟨?_, introspect_single_missing col sigs iname hd hx⟩
    unfold getMethod
    rw [hx]

/-- Witness for C4 at a concrete registry and unregistered name. -/
theorem c4_witness :
    getMethod c4col "nope" "*" "send" = none
    ∧ introspect c4col [("chat.1", 3)] ["nope"] = [] :=
  (c4_misses_return_null c4col [("chat.1", 3)] "nope" "*" "send").2.2.2.2
    (by decide) rfl

/-- C9 counterexample: at interface `chat`, version string `"nope"` and
method `send`, `getMethod` does not fail with a structured error — it
returns normally with null — and `introspect` likewise returns a
normal result object; the claimed synchronous structured failure does
not exist. -/
theorem c9_counterexample :
    getMethodE c9col "chat" "nope" "send" = Except.ok none
    ∧ ¬ (∃ err : KernelError, getMethodE c9col "chat" "nope" "send" = Except.error err)
    ∧ introspect c9col [("chat.1", 3)] ["chat.nope"] = [("chat", none)] := by
  refine ⟨rfl, ?_, by decide⟩
  intro h
  obtain ⟨err, herr⟩ := h
  rw [show getMethodE c9col "chat" "nope" "send" = Except.ok none from rfl] at herr
  exact Except.noConfusion herr

/-- C9 (corrected).  A malformed explicit version string never raises:
`parseInt` yields `NaN`, `getMethod` looks up the key `"NaN"`, misses,
and returns null (wrapped in a normal `Except.ok` return, never an
error), while `introspect` assigns the (undefined) signatures entry at
`name.NaN` under the interface key. -/
theorem c9_malformed_version_no_throw (col : Collection) (sigs : List (String × Nat))
    (iname ver m : String) (iface : Iface)
    (hif : col.lookup iname = some iface)
    (hver : ver ≠ "*")
    (hnan : jsParseInt ver = JsNum.nan)
    (hnanA : jsParseIntAuto ver = JsNum.nan)
    (hkey : iface.versions.lookup "NaN" = none)
    (hdi : '.' ∉ iname.data) (hdv : '.' ∉ ver.data) :
    getMethodE col iname ver m = Except.ok none
    ∧ introspect col sigs [iname ++ "." ++ ver]
        = [(iname, sigs.lookup (iname ++ "." ++ "NaN"))] := by
  constructor
  · rw [getMethodE_eq_ok]
    have hg : getMethod col iname ver m = none := by
      unfold getMethod
      rw [hif]
      dsimp only
      rw [show resolveVersion iface ver = JsNum.nan by
        unfold resolveVersion; rw [if_neg hver, hnan]]
      rw [show jsNumToString JsNum.nan = "NaN" from rfl, hkey]
    rw [hg]
  · rw [introspect_single col sigs iname ver iface hif hdi hdv hver, hnanA]
    rfl

/-- Witness for the corrected C9 at concrete inputs. -/
theorem c9_witness :
    getMethodE c9wcol "chat" "nope" "send" = Except.ok none
    ∧ introspect c9wcol c9wsigs ["chat" ++ "." ++ "nope"]
        = [("chat", c9wsigs.lookup ("chat" ++ "." ++ "NaN"))] :=
  c9_malformed_version_no_throw c9wcol c9wsigs "chat" "nope" "send"
    ⟨1, [("1", [("send", 7)])]⟩ rfl (by decide) (by decide) (by decide) rfl
    (by decide) (by decide)

/-- C10 counterexample: requesting registered interface `chat` at the
explicit version string `"02"`, a stored signatures entry for
`chat.02` exists, yet the produced object maps `chat` to undefined —
the code looks up `chat.2`, the canonical string of `parseInt("02")`,
not `chat.02`. -/
theorem c10_counterexample :
    introspect c10col c10sigs ["chat.02"] = [("chat", none)]
    ∧ c10sigs.lookup "chat.02" = some 9 := by decide

/-- C10 (corrected).  For every registered interface and explicit
version string `v`, `introspect(['I.v'])` produces a result containing
the key `I` — present even when the signature is absent (value
undefined) — mapped to the signatures entry keyed by
`I + '.' + parseInt(v)`, the canonical string of the parsed version. -/
theorem c10_registered_key_always_present (col : Collection)
    (sigs : List (String × Nat)) (iname v : String) (iface : Iface)
    (hif : col.lookup iname = some iface)
    (hdi : '.' ∉ iname.data) (hdv : '.' ∉ v.data) (hv : v ≠ "*") :
    introspect col sigs [iname ++ "." ++ v]
      = [(iname, sigs.lookup (iname ++ "." ++ jsNumToString (jsParseIntAuto v)))]
    ∧ (introspect col sigs [iname ++ "." ++ v]).lookup iname
      = some (sigs.lookup (iname ++ "." ++ jsNumToString (jsParseIntAuto v))) := by
  have h := introspect_single col sigs iname v iface hif hdi hdv hv
  refine ⟨h, ?_⟩
  rw [h]
  simp [List.lookup]

/-- Witness for the corrected C10 at concrete inputs. -/
theorem c10_witness :
    introspect c10wcol c10wsigs ["chat" ++ "." ++ "5"]
      = [("chat", c10wsigs.lookup ("chat" ++ "." ++ jsNumToString (jsParseIntAuto "5")))]
    ∧ (introspect c10wcol c10wsigs ["chat" ++ "." ++ "5"]).lookup "chat"
      = some (c10wsigs.lookup ("chat" ++ "." ++ jsNumToString (jsParseIntAuto "5"))) :=
  c10_registered_key_always_present c10wcol c10wsigs "chat" "5"
    ⟨1, [("1", [("send", 7)])]⟩ rfl (by decide) (by decide) (by decide)

/-- C5 (confirmed).  For a change event on a path owned by a known
place: a failed stat silently drops the event with no call; a
directory stat yields exactly `place.load(path)`; a file stat yields
exactly `place.change(path)` on the owning place (so a change under
`lib` calls `lib.change`, never `db.change` or `domain.change`),
preceded by the `Reload:` debug line only when the worker thread id
is 1. -/
theorem c5_change_event_routing (appPath rest : List Char) (p : PlaceName)
    (tid : Nat) (stat : Option Bool) :
    (stat = none →
      onChange appPath tid stat (appPath ++ '/' :: (placeDir p ++ '/' :: rest))
        = ⟨[], false⟩)
    ∧ (stat = some true →
      onChange appPath tid stat (appPath ++ '/' :: (placeDir p ++ '/' :: rest))
        = ⟨[WAct.load p (appPath ++ '/' :: (placeDir p ++ '/' :: rest))], false⟩)
    ∧ (stat = some false →
      onChange appPath tid stat (appPath ++ '/' :: (placeDir p ++ '/' :: rest))
        = ⟨(if tid = 1
              then [WAct.debugLog ("Reload: /".data ++ (placeDir p ++ '/' :: rest))]
              else [])
            ++ [WAct.change p (appPath ++ '/' :: (placeDir p ++ '/' :: rest))],
           false⟩) := by
  unfold onChange
  rw [watchPlace_concat appPath (placeDir p) rest (placeDir_no_sep p)]
  dsimp only
  rw [placeOfName_placeDir, watchRel_concat]
  refine ⟨?_, ?_, ?_⟩ <;> intro h <;> subst h <;> rfl

/-- Witness for C5: a file change under `lib` on worker 1. -/
theorem c5_witness :
    onChange "/srv/application".data 1 (some false)
        ("/srv/application".data ++ '/' :: (placeDir PlaceName.lib ++ '/' :: "foo.js".data))
      = ⟨(if 1 = 1
            then [WAct.debugLog ("Reload: /".data ++ (placeDir PlaceName.lib ++ '/' :: "foo.js".data))]
            else [])
          ++ [WAct.change PlaceName.lib
                ("/srv/application".data ++ '/' :: (placeDir PlaceName.lib ++ '/' :: "foo.js".data))],
         false⟩ :=
  (c5_change_event_routing "/srv/application".data "foo.js".data PlaceName.lib 1
    (some false)).2.2 rfl

/-- C2 counterexample: a file change under the unknown top-level
directory `unknown` is not silently ignored — the handler's dynamic
`this[place].change` dereference throws, so an error escapes. -/
theorem c2_counterexample :
    (onChange "/srv/application".data 1 (some false)
        "/srv/application/unknown/x.js".data).errored = true := by
  decide

/-- C2 (corrected).  For watcher events whose path's first component
under the application root is not one of the eight place fields, no
place `load`/`change`/`delete` call is made — but the event is not
silently ignored: the dynamic `this[place]` method call throws a
TypeError for every change event whose stat succeeds and for every
delete event (on worker 1 a file change is even debug-logged before
the throw); only a change event whose stat fails is dropped without
error. -/
theorem c2_unknown_place_throws (appPath fp : List Char) (tid : Nat)
    (stat : Option Bool)
    (h : placeOfName (watchPlace appPath fp) = none) :
    (∀ a ∈ (onChange appPath tid stat fp).actions, isPlaceCall a = false)
    ∧ (∀ a ∈ (onDelete appPath tid fp).actions, isPlaceCall a = false)
    ∧ (stat = none → (onChange appPath tid stat fp).errored = false)
    ∧ (stat ≠ none → (onChange appPath tid stat fp).errored = true)
    ∧ (onDelete appPath tid fp).errored = true := by
  unfold onChange onDelete
  dsimp only
  rw [h]
  refine ⟨?_, ?_, ?_, ?_, ?_⟩
  · intro a ha
    rcases stat with _ | b
    · simp at ha
    · cases b
      · dsimp only at ha
        by_cases ht : tid = 1
        · rw [if_pos ht] at ha
          simp only [List.mem_singleton] at ha
          subst ha
          rfl
        · rw [if_neg ht] at ha
          simp at ha
      · simp at ha
  · intro a ha
    simp at ha
  · intro hs
    subst hs
    rfl
  · intro hs
    rcases stat with _ | b
    · exact absurd rfl hs
    · cases b <;> rfl
  · rfl

/-- Witness for the corrected C2: concrete unknown-place change and
delete events. -/
theorem c2_witness :
    ("/srv/application/unknown/x.js".data.drop 1 = "srv/application/unknown/x.js".data)
    ∧ (onDelete "/srv/application".data 1 "/srv/application/unknown/x.js".data).errored
        = true :=
  ⟨by decide,
   (c2_unknown_place_throws "/srv/application".data "/srv/application/unknown/x.js".data
      1 (some false) (by decide)).2.2.2.2⟩

theorem stopPlace_no_setF (pname : String) :
    ∀ mods : PlaceMods, ∀ e ∈ stopPlace pname mods, isSetFinalizationEv e = false := by
  intro mods
  induction mods with
  | nil => intro e he; simp [stopPlace] at he
  | cons x rest ih =>
    intro e he
    rcases x with ⟨n, st⟩
    rcases st with _ | ok
    · simp only [stopPlace] at he
      exact ih e he
    · simp only [stopPlace] at he
      rcases List.mem_append.mp he with he | he
      · rw [List.mem_cons] at he
        rcases he with he | he
        · subst he; rfl
        · cases ok
          · simp only [if_neg (Bool.false_ne_true), List.mem_singleton] at he
            subst he; rfl
          · simp at he
      · exact ih e he

theorem stopPlace_mem_stop (pname : String) :
    ∀ mods : PlaceMods, ∀ m ok, (m, some ok) ∈ mods →
      SEv.stop pname m ok ∈ stopPlace pname mods := by
  intro mods
  induction mods with
  | nil => intro m ok h; simp at h
  | cons x rest ih =>
    intro m ok h
    rcases x with ⟨n, st⟩
    rw [List.mem_cons] at h
    rcases h with h | h
    · obtain ⟨h1, h2⟩ := Prod.mk.injEq .. ▸ h
      subst h1
      subst h2
      simp only [stopPlace]
      exact List.mem_append_left _ (List.mem_cons_self _ _)
    · rcases st with _ | ok2
      · simp only [stopPlace]
        exact ih m ok h
      · simp only [stopPlace]
        exact List.mem_append_right _ (ih m ok h)

theorem stopPlace_mem_log (pname : String) :
    ∀ mods : PlaceMods, ∀ m, (m, some false) ∈ mods →
      SEv.stopLog pname m ∈ stopPlace pname mods := by
  intro mods
  induction mods with
  | nil => intro m h; simp at h
  | cons x rest ih =>
    intro m h
    rcases x with ⟨n, st⟩
    rw [List.mem_cons] at h
    rcases h with h | h
    · obtain ⟨h1, h2⟩ := Prod.mk.injEq .. ▸ h
      subst h1
      subst h2
      simp only [stopPlace]
      refine List.mem_append_left _ (List.mem_cons_of_mem _ ?_)
      simp
    · rcases st with _ | ok2
      · simp only [stopPlace]
        exact ih m h
      · simp only [stopPlace]
        exact List.mem_append_right _ (ih m h)

/-- C7 (confirmed).  `shutdown` sets the finalization flag to true as
its first step (the flag write is the head of the trace and no other
finalization write exists, so it is never reset), then stops places in
the order `domain`, `db`, `lib` — invoking every module stop hook,
with each failure caught and logged (the later stops are all still
present in the trace) — then closes the server when present, and
closes the logger last. -/
theorem c7_shutdown_order (env : ShutEnv) (s0 : AppState) :
    (shutdown env s0).2.finalization = true
    ∧ (shutdown env s0).1.head? = some (SEv.setFinalization true)
    ∧ (∀ b, SEv.setFinalization b ∈ (shutdown env s0).1 → b = true)
    ∧ (shutdown env s0).1
        = SEv.setFinalization true
          :: (stopPlace "domain" env.domainMods ++ stopPlace "db" env.dbMods
              ++ stopPlace "lib" env.libMods
              ++ (if env.hasServer then [SEv.serverClose] else []) ++ [SEv.loggerClose])
    ∧ (∀ m ok, (m, some ok) ∈ env.libMods →
        SEv.stop "lib" m ok ∈ (shutdown env s0).1)
    ∧ (∀ m, (m, some false) ∈ env.domainMods →
        SEv.stopLog "domain" m ∈ (shutdown env s0).1)
    ∧ (shutdown env s0).1.getLast? = some SEv.loggerClose := by
  refine ⟨rfl, rfl, ?_, rfl, ?_, ?_, ?_⟩
  · intro b hb
    rw [show (shutdown env s0).1
        = SEv.setFinalization true
          :: (stopPlace "domain" env.domainMods ++ (stopPlace "db" env.dbMods
              ++ (stopPlace "lib" env.libMods
              ++ ((if env.hasServer then [SEv.serverClose] else []) ++ [SEv.loggerClose]))))
      by simp [shutdown]] at hb
    rw [List.mem_cons] at hb
    rcases hb with hb | hb
    · injection hb
    rcases List.mem_append.mp hb with hb | hb
    · have := stopPlace_no_setF "domain" env.domainMods _ hb
      exact absurd this (by simp [isSetFinalizationEv])
    rcases List.mem_append.mp hb with hb | hb
    · have := stopPlace_no_setF "db" env.dbMods _ hb
      exact absurd this (by simp [isSetFinalizationEv])
    rcases List.mem_append.mp hb with hb | hb
    · have := stopPlace_no_setF "lib" env.libMods _ hb
      exact absurd this (by simp [isSetFinalizationEv])
    rcases List.mem_append.mp hb with hb | hb
    · cases henv : env.hasServer <;> rw [henv] at hb <;> simp at hb
    · simp at hb
  · intro m ok h
    rw [show (shutdown env s0).1
        = SEv.setFinalization true
          :: (stopPlace "domain" env.domainMods ++ (stopPlace "db" env.dbMods
              ++ (stopPlace "lib" env.libMods
              ++ ((if env.hasServer then [SEv.serverClose] else []) ++ [SEv.loggerClose]))))
      by simp [shutdown]]
    exact List.mem_cons_of_mem _ (List.mem_append_right _ (List.mem_append_right _
      (List.mem_append_left _ (stopPlace_mem_stop "lib" env.libMods m ok h))))
  · intro m h
    rw [show (shutdown env s0).1
        = SEv.setFinalization true
          :: (stopPlace "domain" env.domainMods ++ (stopPlace "db" env.dbMods
              ++ (stopPlace "lib" env.libMods
              ++ ((if env.hasServer then [SEv.serverClose] else []) ++ [SEv.loggerClose]))))
      by simp [shutdown]]
    exact List.mem_cons_of_mem _
      (List.mem_append_left _ (stopPlace_mem_log "domain" env.domainMods m h))
  · rw [show (shutdown env s0).1
        = (SEv.setFinalization true
            :: (stopPlace "domain" env.domainMods ++ (stopPlace "db" env.dbMods
                ++ (stopPlace "lib" env.libMods
                ++ (if env.hasServer then [SEv.serverClose] else [])))))
          ++ [SEv.loggerClose] by simp [shutdown]]
    exact List.getLast?_concat _

/-- Witness for C7 at a concrete shutdown environment. -/
theorem c7_witness :
    (shutdown c7env appState0).2.finalization = true
    ∧ SEv.stopLog "domain" "m1" ∈ (shutdown c7env appState0).1 :=
  ⟨(c7_shutdown_order c7env appState0).1,
   (c7_shutdown_order c7env appState0).2.2.2.2.2.1 "m1" (by decide)⟩

theorem runInit_apiFail (env : InitEnv) (sched : List Nat) (kind : String)
    (s0 : AppState) (h : env.apiOk = false) :
    runInit env sched kind s0
      = ⟨runFanout env sched ++ hookTrace s0.starts ++ [Ev.load PlaceName.api env.apiOk],
         { s0 with kind := kind }, false⟩ := by
  simp [runInit, h]

theorem runInit_schedFail (env : InitEnv) (sched : List Nat) (s0 : AppState)
    (hapi : env.apiOk = true) (hso : env.schedulerOk = false) :
    runInit env sched "scheduler" s0
      = ⟨runFanout env sched ++ hookTrace s0.starts ++ [Ev.load PlaceName.api env.apiOk]
          ++ [Ev.load PlaceName.scheduler env.schedulerOk],
         { s0 with kind := "scheduler", apiAuth := env.apiAuth }, false⟩ := by
  simp [runInit, hapi, hso]

theorem runInit_ok (env : InitEnv) (sched : List Nat) (kind : String) (s0 : AppState)
    (hapi : env.apiOk = true)
    (hks : ¬(kind = "scheduler" ∧ env.schedulerOk = false)) :
    runInit env sched kind s0
      = ⟨runFanout env sched ++ hookTrace s0.starts ++ [Ev.load PlaceName.api env.apiOk]
          ++ (if kind = "scheduler" then [Ev.load PlaceName.scheduler env.schedulerOk] else [])
          ++ authEvents env,
         { authBootstrap env { s0 with kind := kind, apiAuth := env.apiAuth }
             with starts := [], initialization := false }, true⟩ := by
  simp [runInit, hapi, hks]

/-- C1 (corrected).  `init` resolves whenever `api.load` succeeds and —
for kind `'scheduler'` — `scheduler.load` succeeds: the four fan-out
branches and every queued start hook may fail in any combination (the
outcomes in `env` and `s0.starts` are arbitrary here) without aborting
`init` or cancelling the sibling branches (each branch's load is still
in the trace), every rejected start hook is caught and logged, and
after `init` resolves the `initialization` flag is false and the start
queue is cleared. -/
theorem c1_init_resolves_under_isolated_failures (env : InitEnv) (sched : List Nat)
    (kind : String) (s0 : AppState)
    (hapi : env.apiOk = true)
    (hsched : kind = "scheduler" → env.schedulerOk = true) :
    (runInit env sched kind s0).resolved = true
    ∧ (runInit env sched kind s0).state.initialization = false
    ∧ (runInit env sched kind s0).state.starts = []
    ∧ (∀ j, s0.starts.get? j = some false →
        Ev.hookLog j ∈ (runInit env sched kind s0).trace)
    ∧ Ev.load PlaceName.schemas env.schemasOk ∈ (runInit env sched kind s0).trace
    ∧ Ev.load PlaceName.staticP env.staticOk ∈ (runInit env sched kind s0).trace
    ∧ Ev.load PlaceName.resources env.resourcesOk ∈ (runInit env sched kind s0).trace
    ∧ Ev.load PlaceName.lib env.libOk ∈ (runInit env sched kind s0).trace := by
  have hks : ¬(kind = "scheduler" ∧ env.schedulerOk = false) := by
    intro hpair
    have hh := hsched hpair.1
    rw [hh] at hpair
    exact Bool.noConfusion hpair.2
  rw [runInit_ok env sched kind s0 hapi hks]
  obtain ⟨h1, h2, h3, h4⟩ := runFanout_mem env sched
  refine ⟨rfl, rfl, rfl, ?_, ?_, ?_, ?_, ?_⟩
  · intro j hj
    exact List.mem_append_left _ (List.mem_append_left _ (List.mem_append_left _
      (List.mem_append_right _ (hookTrace_log s0.starts j hj))))
  · exact List.mem_append_left _ (List.mem_append_left _ (List.mem_append_left _
      (List.mem_append_left _ h1)))
  · exact List.mem_append_left _ (List.mem_append_left _ (List.mem_append_left _
      (List.mem_append_left _ h2)))
  · exact List.mem_append_left _ (List.mem_append_left _ (List.mem_append_left _
      (List.mem_append_left _ h3)))
  · exact List.mem_append_left _ (List.mem_append_left _ (List.mem_append_left _
      (List.mem_append_left _ h4)))

/-- C1 counterexample: with every branch and hook healthy but
`api.load` rejecting, the promise returned by `init` rejects and the
`initialization` flag stays true — `init` does not resolve for every
kind and environment. -/
theorem c1_counterexample :
    (runInit c1env [] "server" appState0).resolved = false
    ∧ (runInit c1env [] "server" appState0).state.initialization = true := by
  decide

/-- Witness for the corrected C1: schemas and db fail, one hook
rejects, yet `init` resolves and flips the flag. -/
theorem c1_witness :
    (runInit c1wEnv [3, 0, 3] "server" c1wState).resolved = true
    ∧ (runInit c1wEnv [3, 0, 3] "server" c1wState).state.initialization = false
    ∧ Ev.hookLog 1 ∈ (runInit c1wEnv [3, 0, 3] "server" c1wState).trace := by
  have h := c1_init_resolves_under_isolated_failures c1wEnv [3, 0, 3] "server" c1wState
    rfl (fun hk => absurd hk (by decide))
  exact ⟨h.1, h.2.1, h.2.2.2.1 1 (by decide)⟩

theorem authBootstrap_adopt (env : InitEnv) (s : AppState) (p : Nat)
    (haa : s.apiAuth = some (some p)) :
    authBootstrap env s = { s with auth := some p } := by
  unfold authBootstrap
  rw [haa]

theorem authBootstrap_construct (env : InitEnv) (s : AppState)
    (haa : s.apiAuth = some none) :
    authBootstrap env s
      = { s with auth := some env.newProvider,
                 apiAuth := some (some env.newProvider) } := by
  unfold authBootstrap
  rw [haa]

theorem authBootstrap_noop (env : InitEnv) (s : AppState)
    (haa : s.apiAuth = none) :
    authBootstrap env s = s := by
  unfold authBootstrap
  rw [haa]

theorem filter_authNew_fanout (env : InitEnv) (sched : List Nat) :
    List.filter isAuthNewEv (runFanout env sched) = [] :=
  List.filter_eq_nil_iff.mpr (fun e he => by
    simp [(fanEv_cases e ((runFanout_spec env sched).2.2.2.2 e he)).2.2.1])

theorem filter_authNew_hooks (starts : List Bool) :
    List.filter isAuthNewEv (hookTrace starts) = [] :=
  List.filter_eq_nil_iff.mpr (fun e he => by
    simp [(hookEv_cases e (hookTraceFrom_all starts 0 e he)).2])

/-- C6 (confirmed).  Auth bootstrap after api load is a three-way case
analysis on the api registry's `auth` section: an existing provider is
adopted by reference with no construction (no `authNew` event); an
`auth` section without provider causes exactly one construction, and
that same instance becomes both the Application's `auth` and the
registry's `auth.provider`; no `auth` section leaves `auth` exactly as
it was (null on a freshly constructed Application). -/
theorem c6_auth_bootstrap_three_way (env : InitEnv) (sched : List Nat)
    (kind : String) (s0 : AppState)
    (hapi : env.apiOk = true)
    (hsched : kind = "scheduler" → env.schedulerOk = true) :
    (∀ p, env.apiAuth = some (some p) →
        (runInit env sched kind s0).state.auth = some p
        ∧ (runInit env sched kind s0).state.apiAuth = some (some p)
        ∧ List.filter isAuthNewEv (runInit env sched kind s0).trace = [])
    ∧ (env.apiAuth = some none →
        (runInit env sched kind s0).state.auth = some env.newProvider
        ∧ (runInit env sched kind s0).state.apiAuth = some (some env.newProvider)
        ∧ List.filter isAuthNewEv (runInit env sched kind s0).trace
            = [Ev.authNew env.newProvider])
    ∧ (env.apiAuth = none →
        (runInit env sched kind s0).state.auth = s0.auth
        ∧ (runInit env sched kind s0).state.apiAuth = none
        ∧ List.filter isAuthNewEv (runInit env sched kind s0).trace = []) := by
  have hks : ¬(kind = "scheduler" ∧ env.schedulerOk = false) := by
    intro hpair
    have hh := hsched hpair.1
    rw [hh] at hpair
    exact Bool.noConfusion hpair.2
  rw [runInit_ok env sched kind s0 hapi hks]
  have hfilsched : List.filter isAuthNewEv
      (if kind = "scheduler" then [Ev.load PlaceName.scheduler env.schedulerOk] else [])
      = [] := by
    by_cases hk : kind = "scheduler" <;> simp [hk, isAuthNewEv]
  refine ⟨?_, ?_, ?_⟩
  · intro p haa
    rw [authBootstrap_adopt env _ p (show _ = some (some p) from haa)]
    refine ⟨rfl, haa ▸ rfl, ?_⟩
    dsimp only
    rw [List.filter_append, List.filter_append, List.filter_append, List.filter_append,
      filter_authNew_fanout, filter_authNew_hooks, hfilsched,
      show authEvents env = [] by unfold authEvents; rw [haa]]
    rfl
  · intro haa
    rw [authBootstrap_construct env _ (show _ = some none from haa)]
    refine ⟨rfl, rfl, ?_⟩
    dsimp only
    rw [List.filter_append, List.filter_append, List.filter_append, List.filter_append,
      filter_authNew_fanout, filter_authNew_hooks, hfilsched,
      show authEvents env = [Ev.authNew env.newProvider] by unfold authEvents; rw [haa]]
    rfl
  · intro haa
    rw [authBootstrap_noop env _ (show _ = none from haa)]
    refine ⟨rfl, haa ▸ rfl, ?_⟩
    dsimp only
    rw [List.filter_append, List.filter_append, List.filter_append, List.filter_append,
      filter_authNew_fanout, filter_authNew_hooks, hfilsched,
      show authEvents env = [] by unfold authEvents; rw [haa]]
    rfl

/-- Witness for C6: an `auth` section without provider constructs
exactly one provider, visible at both slots. -/
theorem c6_witness :
    (runInit c6wEnv [] "server" appState0).state.auth = some 42
    ∧ (runInit c6wEnv [] "server" appState0).state.apiAuth = some (some 42)
    ∧ List.filter isAuthNewEv (runInit c6wEnv [] "server" appState0).trace
        = [Ev.authNew 42] :=
  (c6_auth_bootstrap_three_way c6wEnv [] "server" appState0 rfl
    (fun hk => absurd hk (by decide))).2.1 rfl

theorem hookEv_not_chain (e : Ev) (h : isHookEv e = true) : isChainEv e = false := by
  cases e <;> simp_all [isHookEv, isChainEv]

theorem schedAuth_not_chain (e : Ev) (h : isSchedOrAuthEv e = true) : isChainEv e = false := by
  cases e with
  | load p b => cases p <;> simp_all [isSchedOrAuthEv, isChainEv, isChainP]
  | hook i b => rfl
  | hookLog i => rfl
  | authNew p => rfl

/-- C8 (corrected).  The load steps of `init` are strictly ordered for
every interleaving of the fan-out: the subsequence of lib/db/domain
loads in the trace is exactly the sequential short-circuit run
`lib; db (if lib succeeded); domain (if db succeeded)` — so `lib.load`
settles before `db.load` starts and `db.load` before `domain.load`;
the api load occurs after a prefix consisting solely of fan-out events
and hook events (all of which it therefore follows); and the scheduler
place is loaded if and only if the kind equals `'scheduler'` AND the
api load succeeded (a rejected `api.load` skips it), strictly after
the api load (only scheduler/auth events follow the api event). -/
theorem c8_init_load_ordering (env : InitEnv) (sched : List Nat) (kind : String)
    (s0 : AppState) :
    (List.filter isChainEv (runInit env sched kind s0).trace
        = runOps env [PlaceName.lib, PlaceName.db, PlaceName.domain])
    ∧ (∃ post, (runInit env sched kind s0).trace
          = runFanout env sched
            ++ (hookTrace s0.starts ++ (Ev.load PlaceName.api env.apiOk :: post))
        ∧ ∀ e ∈ post, isSchedOrAuthEv e = true)
    ∧ (∀ e ∈ runFanout env sched, isFanEv e = true)
    ∧ (∀ e ∈ hookTrace s0.starts, isHookEv e = true)
    ∧ ((∃ b, Ev.load PlaceName.scheduler b ∈ (runInit env sched kind s0).trace)
        ↔ kind = "scheduler" ∧ env.apiOk = true) := by
  obtain ⟨post, htr, hpost⟩ := runInit_trace_shape env sched kind s0
  refine ⟨?_, ⟨post, htr, hpost⟩, (runFanout_spec env sched).2.2.2.2,
    hookTraceFrom_all s0.starts 0, ?_⟩
  · rw [htr, List.filter_append, List.filter_append, List.filter_cons]
    rw [(runFanout_spec env sched).2.2.2.1]
    rw [List.filter_eq_nil_iff.mpr (fun e he => by
      simp [hookEv_not_chain e (hookTraceFrom_all s0.starts 0 e he)])]
    rw [List.filter_eq_nil_iff.mpr (fun e he => by
      simp [schedAuth_not_chain e (hpost e he)])]
    simp [isChainEv, isChainP]
  · constructor
    · rintro ⟨b, hb⟩
      by_cases hapi : env.apiOk = false
      · rw [runInit_apiFail env sched kind s0 hapi] at hb
        exfalso
        dsimp only at hb
        rcases List.mem_append.mp hb with hb | hb
        · rcases List.mem_append.mp hb with hb | hb
          · exact (fanEv_cases _ ((runFanout_spec env sched).2.2.2.2 _ hb)).2.1 b rfl
          · exact (hookEv_cases _ (hookTraceFrom_all s0.starts 0 _ hb)).1
              PlaceName.scheduler b rfl
        · simp at hb
      · have hapiT : env.apiOk = true := by
          cases henv : env.apiOk
          · exact absurd henv hapi
          · rfl
        by_cases hk : kind = "scheduler"
        · exact ⟨hk, hapiT⟩
        · exfalso
          have hks : ¬(kind = "scheduler" ∧ env.schedulerOk = false) := fun hp => hk hp.1
          rw [runInit_ok env sched kind s0 hapiT hks, if_neg hk] at hb
          dsimp only at hb
          rcases List.mem_append.mp hb with hb | hb
          · rcases List.mem_append.mp hb with hb | hb
            · rcases List.mem_append.mp hb with hb | hb
              · rcases List.mem_append.mp hb with hb | hb
                · exact (fanEv_cases _ ((runFanout_spec env sched).2.2.2.2 _ hb)).2.1 b rfl
                · exact (hookEv_cases _ (hookTraceFrom_all s0.starts 0 _ hb)).1
                    PlaceName.scheduler b rfl
              · simp at hb
            · simp at hb
          · unfold authEvents at hb
            rcases haa : env.apiAuth with _ | (_ | p) <;> rw [haa] at hb <;> simp at hb
    · rintro ⟨hk, hapiT⟩
      refine ⟨env.schedulerOk, ?_⟩
      by_cases hso : env.schedulerOk = false
      · subst hk
        rw [runInit_schedFail env sched s0 hapiT hso]
        exact List.mem_append_right _ (List.mem_singleton_self _)
      · have hks : ¬(kind = "scheduler" ∧ env.schedulerOk = false) := fun hp => hso hp.2
        rw [runInit_ok env sched kind s0 hapiT hks, if_pos hk]
        exact List.mem_append_left _ (List.mem_append_right _ (List.mem_singleton_self _))

/-- C8 counterexample: with kind `'scheduler'` but `api.load`
rejecting, the scheduler place load never happens, so "scheduler is
loaded if and only if kind equals scheduler" fails as stated. -/
theorem c8_counterexample :
    Ev.load PlaceName.scheduler true ∉ (runInit c8env [] "scheduler" appState0).trace
    ∧ Ev.load PlaceName.scheduler false ∉ (runInit c8env [] "scheduler" appState0).trace := by
  decide
